import Mathlib

/-!
Shallow embedding of the cache-and-routing core of the multi-agent RAG
repository: the semantic cache (src/agents/cache_agent.py), the HITL query
assessor (src/agents/hitl.py), the conversation memory
(src/agents/conversation_memory.py), the manager router
(src/agents/manager_agent.py) and the financial text-signal extractors
(src/mcp/financial_tools.py).

Python strings are modelled as Lean `String` (ASCII scope: `str.lower`,
`str.strip`, `str.split` agree with the Lean counterparts we define below on
ASCII input).  Python floats are modelled as exact numbers: similarity scores
and cosine values over `ℝ`, parsed dollar/percent amounts over `ℚ`.
Fallible external calls (the embedder, the answering agent) are modelled as
`Option` / `Except` valued inputs.
-/

/-! ## Python string primitives -/

/-- Python whitespace for `str.split()` (space, tab, newline, CR, VT, FF). -/
def pyIsSpace (c : Char) : Bool :=
  c == ' ' || c == '\t' || c == '\n' || c == '\r' || c == '\x0b' || c == '\x0c'

/-- Substring containment on character lists: Python `needle in hay`. -/
def listSub (needle : List Char) : List Char → Bool
  | [] => needle.isEmpty
  | c :: t => needle.isPrefixOf (c :: t) || listSub needle t

/-- Python `needle in hay` on strings. -/
def pyIn (needle hay : String) : Bool :=
  listSub needle.toList hay.toList

/-- Whitespace stripped from both ends of a character list. -/
def stripList (l : List Char) : List Char :=
  ((l.dropWhile pyIsSpace).reverse.dropWhile pyIsSpace).reverse

/-- Python `s.strip()` (whitespace trimmed at both ends). -/
def pyStrip (s : String) : String := String.mk (stripList s.toList)

/-- Python `s.lower()` (ASCII case folding). -/
def pyLower (s : String) : String := String.mk (s.toList.map Char.toLower)

/-- Python `s.split()` helper: whitespace-run splitting with an accumulator
for the word being read (reversed). -/
def wordsAux : List Char → List Char → List (List Char)
  | [], acc => if acc.isEmpty then [] else [acc.reverse]
  | c :: t, acc =>
    if pyIsSpace c then
      if acc.isEmpty then wordsAux t [] else acc.reverse :: wordsAux t []
    else wordsAux t (c :: acc)

/-- Python `s.split()` — split on whitespace runs, dropping empty pieces. -/
def pySplitWS (s : String) : List String := (wordsAux s.toList []).map String.mk

/-- Number of whitespace-separated words, Python `len(s.split())`. -/
def pyWordCount (s : String) : Nat := (pySplitWS s).length

/-! ## HITL query assessor (src/agents/hitl.py) -/

inductive QuestionComplexity where
  | simple
  | moderate
  | complex
  | uncertain
deriving DecidableEq, Repr

inductive ConfidenceLevel where
  | high
  | medium
  | low
  | uncertain
deriving DecidableEq, Repr

structure AnswerAssessment where
  confidence : ConfidenceLevel
  complexity : QuestionComplexity
  needsClarification : Bool
  clarificationQuestion : Option String
  dataFound : Bool
  inferenceRequired : Bool
deriving DecidableEq, Repr

/-- `complex_patterns` list from `HITLManager.assess_question`. -/
def complexPatterns : List String :=
  ["what does", "what do you think",
   "what can we infer", "what conclusions",
   "why did", "why does", "why is",
   "what's the implication", "implications of",
   "how will", "how might", "how could",
   "should the company", "what strategy",
   "compare and contrast", "analyze the relationship",
   "what's your assessment", "evaluate",
   "predict", "forecast", "expect"]

/-- `moderate_patterns` list from `HITLManager.assess_question`. -/
def moderatePatterns : List String :=
  ["how did", "how does",
   "what caused", "what led to",
   "explain", "describe",
   "summarize", "overview",
   "what are the main", "key",
   "compare", "versus", "vs"]

/-- Year tokens `str(y) for y in range(2020, 2030)`. -/
def yearTokens : List String := (List.range 10).map (fun i => toString (2020 + i))

/-- Relative-time clarification trigger: a relative time word in the lowered
query and no concrete year token in the original query. -/
def timeTrigger (query : String) : Bool :=
  (["last year", "this year", "recent"].any (fun w => pyIn w (pyLower query))) &&
    !(yearTokens.any (fun y => pyIn y query))

/-- `vague_indicators` list from `HITLManager.assess_question`. -/
def vagueIndicators : List String := ["tell me about", "what about", "anything on"]

/-- Vague-query clarification trigger: a vague opener and fewer than 5 words. -/
def vagueTrigger (query : String) : Bool :=
  (vagueIndicators.any (fun v => pyIn v (pyLower query))) && pyWordCount query < 5

def timeClarificationQuestion : String :=
  "Which specific year or period are you asking about?"

def vagueClarificationQuestion : String :=
  "Could you be more specific? What aspect would you like to know about?"

/-- `HITLManager.assess_question`.  Note the Python source runs the
time-reference check first and the vague-query check second, the second
assignment overwriting `clarification_question` when both fire. -/
def assessQuestion (query : String) : AnswerAssessment :=
  let ql := pyLower query
  let ci : QuestionComplexity × Bool :=
    if complexPatterns.any (fun p => pyIn p ql) then (.complex, true)
    else if moderatePatterns.any (fun p => pyIn p ql) then (.moderate, false)
    else (.simple, false)
  let nc1 : Bool × Option String :=
    if timeTrigger query then (true, some timeClarificationQuestion)
    else (false, none)
  let nc2 : Bool × Option String :=
    if vagueTrigger query then (true, some vagueClarificationQuestion)
    else nc1
  { confidence := .medium
    complexity := ci.1
    needsClarification := nc2.1
    clarificationQuestion := nc2.2
    dataFound := true
    inferenceRequired := ci.2 }

/-- `uncertainty_phrases` list from `HITLManager.assess_answer_confidence`. -/
def uncertaintyPhrases : List String :=
  ["not found", "could not find", "no information",
   "unclear", "uncertain", "may", "might", "possibly"]

/-- `any(c.isdigit() for c in answer)`. -/
def hasDigitIn (answer : String) : Bool := answer.toList.any Char.isDigit

def hasDollarIn (answer : String) : Bool := pyIn "$" answer

def hasPercentIn (answer : String) : Bool := pyIn "%" answer

def hasUncertaintyIn (answer : String) : Bool :=
  uncertaintyPhrases.any (fun p => pyIn p (pyLower answer))

/-- `HITLManager.assess_answer_confidence`. -/
def assessAnswerConfidence (_query answer : String) (contexts : List String) :
    ConfidenceLevel :=
  if contexts.isEmpty then .uncertain
  else if hasUncertaintyIn answer then .low
  else if hasDigitIn answer && hasDollarIn answer then .high
  else if hasDigitIn answer || hasDollarIn answer || hasPercentIn answer then .medium
  else .low

structure HITLRequest where
  requestType : String
  message : String
  originalQuery : String
deriving DecidableEq, Repr

/-- `HITLManager.get_clarification_request`. -/
def getClarificationRequest (assessment : AnswerAssessment) (query : String) :
    Option HITLRequest :=
  if !assessment.needsClarification then none
  else some
    { requestType := "clarification"
      message := assessment.clarificationQuestion.getD "Could you provide more details?"
      originalQuery := query }

/-- `HITLManager.format_confidence_indicator`. -/
def formatConfidenceIndicator (confidence : ConfidenceLevel) : String :=
  match confidence with
  | .high => "🟢 High confidence - Based on specific data from the filing"
  | .medium => "🟡 Medium confidence - Based on available information"
  | .low => "🟠 Lower confidence - Some inference required"
  | .uncertain => "🔴 Uncertain - Limited data available"

/-! ## Conversation memory (src/agents/conversation_memory.py) -/

inductive ChatMsg where
  | human (content : String)
  | ai (content : String)
deriving DecidableEq, Repr

def ChatMsg.content : ChatMsg → String
  | .human c => c
  | .ai c => c

structure ConversationMemory where
  windowSize : Nat
  messages : List ChatMsg
deriving DecidableEq, Repr

/-- `ConversationMemory._trim_to_window`: Python
`messages[-(window_size * 2):]` when the log exceeds `window_size * 2`.
Note the Python slice gotcha: for `window_size = 0` the slice `[-0:]` is the
whole list, so nothing is trimmed. -/
def trimToWindow (w : Nat) (msgs : List ChatMsg) : List ChatMsg :=
  if w * 2 < msgs.length then
    if w * 2 = 0 then msgs else msgs.drop (msgs.length - w * 2)
  else msgs

def ConversationMemory.addUserMessage (m : ConversationMemory) (content : String) :
    ConversationMemory :=
  { m with messages := trimToWindow m.windowSize (m.messages ++ [.human content]) }

def ConversationMemory.addAiMessage (m : ConversationMemory) (content : String) :
    ConversationMemory :=
  { m with messages := trimToWindow m.windowSize (m.messages ++ [.ai content]) }

/-- `ConversationMemory.add_message`: the role string `"user"` selects a human
message, any other role an AI message. -/
def ConversationMemory.addMessage (m : ConversationMemory) (role content : String) :
    ConversationMemory :=
  if role = "user" then m.addUserMessage content else m.addAiMessage content

def ConversationMemory.getMessages (m : ConversationMemory) : List ChatMsg :=
  m.messages

/-- One rendered line of the context summary: two spaces, role, colon,
content truncated to 200 characters with an ellipsis. -/
def summaryLine (msg : ChatMsg) : String :=
  let role := match msg with | .human _ => "User" | .ai _ => "Assistant"
  let content := msg.content
  let content :=
    if 200 < content.toList.length then String.mk (content.toList.take 200) ++ "..."
    else content
  "  " ++ role ++ ": " ++ content

/-- `ConversationMemory.get_context_summary`. -/
def ConversationMemory.getContextSummary (m : ConversationMemory) : String :=
  if m.messages.isEmpty then ""
  else String.intercalate "\n" ("Recent conversation:" :: m.messages.map summaryLine)

/-- `follow_up_indicators` list from `ConversationMemory.enrich_query`. -/
def followUpIndicators : List String :=
  ["it", "that", "this", "they", "them", "their",
   "the company", "the same", "more about", "what about",
   "and what", "how about", "tell me more", "explain more",
   "why", "how come", "what else"]

/-- Reverse scan of `enrich_query`: the most recent human message whose
lowered, stripped content differs from the lowered, stripped query. -/
def findLastTopic (queryLower : String) : List ChatMsg → Option String
  | [] => none
  | .human c :: rest =>
      if pyStrip (pyLower c) = queryLower then findLastTopic queryLower rest
      else some c
  | .ai _ :: rest => findLastTopic queryLower rest

/-- `ConversationMemory.enrich_query`. -/
def ConversationMemory.enrichQuery (m : ConversationMemory) (query : String) : String :=
  let queryLower := pyStrip (pyLower query)
  if m.messages.isEmpty then query
  else
    let isFollowUp :=
      (followUpIndicators.any (fun ind => pyIn ind queryLower)) && pyWordCount query < 10
    if !isFollowUp then query
    else
      match findLastTopic queryLower m.messages.reverse with
      | some topic =>
          if topic ≠ "" ∧ topic ≠ query then
            query ++ " (in context of: " ++ topic ++ ")"
          else query
      | none => query

def ConversationMemory.clearMemory (m : ConversationMemory) : ConversationMemory :=
  { m with messages := [] }

/-- A user/assistant pair appended through `add_message`, as in the memory
window test scenario. -/
def addPair (m : ConversationMemory) (p : String × String) : ConversationMemory :=
  (m.addMessage "user" p.1).addMessage "assistant" p.2

/-- Flatten user/assistant pairs into the retained message log shape. -/
def flatPairs : List (String × String) → List ChatMsg
  | [] => []
  | (u, a) :: t => .human u :: .ai a :: flatPairs t

/-! ## Semantic cache (src/agents/cache_agent.py) -/

/-- The dict stored by `CacheAgent.put` under the normalized key. -/
structure CacheEntry where
  response : String
  contexts : List String
  tokenInfo : String
deriving DecidableEq, Repr

/-- A cache hit: the stored dict plus the `"similarity"` annotation. -/
structure CacheHit where
  response : String
  contexts : List String
  tokenInfo : String
  similarity : ℝ

/-- `CacheAgent._normalize`: `query.lower().strip()`. -/
def normalizeQuery (query : String) : String := pyStrip (pyLower query)

/-- Ordered association-list lookup, the Python `key in dict` / `dict[key]`
pair on an `OrderedDict` represented as an insertion-ordered list. -/
def alookup (k : String) : List (String × α) → Option α
  | [] => none
  | (k', v) :: t => if k' = k then some v else alookup k t

/-- `OrderedDict` assignment `d[k] = v`: replace in place when the key is
present (position preserved), otherwise append at the end. -/
def odSet (k : String) (v : α) : List (String × α) → List (String × α)
  | [] => [(k, v)]
  | (k', v') :: t => if k' = k then (k, v) :: t else (k', v') :: odSet k v t

/-- `dict.pop(k, None)`: drop the binding of `k` when present. -/
def eraseKey (k : String) : List (String × α) → List (String × α)
  | [] => []
  | (k', v') :: t => if k' = k then t else (k', v') :: eraseKey k t

/-- `np.dot` on equal-length vectors (the only shape the code produces). -/
def dotL : List ℝ → List ℝ → ℝ
  | a :: as, b :: bs => a * b + dotL as bs
  | _, _ => 0

/-- `np.linalg.norm`: the Euclidean norm. -/
noncomputable def norm2 (v : List ℝ) : ℝ := Real.sqrt (dotL v v)

/-- `CacheAgent._cosine` on two present embeddings:
`dot(a, b) / (norm(a) * norm(b))`.  (The Python `None` guard is handled by
the `Option`-valued embedder in `CacheAgent.get`/`put`.) -/
noncomputable def cosine (a b : List ℝ) : ℝ := dotL a b / (norm2 a * norm2 b)

/-- State of a `CacheAgent`.  The external embedder together with
`CacheAgent._embed`'s `try/except` is the `Option`-valued `embed` field:
`none` models the embedder raising (or the model returning nothing). -/
structure CacheAgent where
  cache : List (String × CacheEntry)
  cacheEmbeddings : List (String × List ℝ)
  embed : String → Option (List ℝ)
  maxSize : Nat
  similarityThreshold : ℝ

/-- One step of the similarity scan loop in `CacheAgent.get`:
`if sim >= self.similarity_threshold and sim > best_sim`. -/
noncomputable def simStep (thr : ℝ) (qemb : List ℝ) (acc : Option String × ℝ)
    (p : String × List ℝ) : Option String × ℝ :=
  if thr ≤ cosine qemb p.2 ∧ acc.2 < cosine qemb p.2 then (some p.1, cosine qemb p.2)
  else acc

/-- The whole similarity scan of `CacheAgent.get`, starting from
`best_key = None`, `best_sim = 0.0`. -/
noncomputable def simScan (thr : ℝ) (qemb : List ℝ)
    (embeddings : List (String × List ℝ)) : Option String × ℝ :=
  embeddings.foldl (simStep thr qemb) (none, 0)

/-- `CacheAgent.get`.  The final Python `if best_key:` is a truthiness test:
both `None` and the empty string fall through to the miss branch.  (A best
key missing from `self.cache` would raise a `KeyError` in Python; it cannot
occur in states reachable through `put`/`clear`, and is modelled as a miss.) -/
noncomputable def CacheAgent.get (s : CacheAgent) (query : String) : Option CacheHit :=
  match alookup (normalizeQuery query) s.cache with
  | some d => some ⟨d.response, d.contexts, d.tokenInfo, 1⟩
  | none =>
    match s.embed query with
    | none => none
    | some qemb =>
      match simScan s.similarityThreshold qemb s.cacheEmbeddings with
      | (some bestKey, bestSim) =>
        if bestKey = "" then none
        else
          match alookup bestKey s.cache with
          | some d => some ⟨d.response, d.contexts, d.tokenInfo, bestSim⟩
          | none => none
      | (none, _) => none

/-- `CacheAgent.put`.  Eviction (`popitem(last=False)` plus the embedding
`pop`) runs first whenever the cache is at or above capacity — before the
incoming key is even looked at.  `popitem` on an empty dict raises in Python;
that needs `max_size = 0` and is modelled as a no-op here. -/
def CacheAgent.put (s : CacheAgent) (query response : String)
    (contexts : List String) (tokenInfo : String) : CacheAgent :=
  let key := normalizeQuery query
  let s1 :=
    if s.maxSize ≤ s.cache.length then
      match s.cache with
      | [] => s
      | (oldKey, _) :: rest =>
        { s with cache := rest, cacheEmbeddings := eraseKey oldKey s.cacheEmbeddings }
    else s
  let emb := s.embed query
  let s2 := { s1 with cache := odSet key ⟨response, contexts, tokenInfo⟩ s1.cache }
  match emb with
  | some e => { s2 with cacheEmbeddings := odSet key e s2.cacheEmbeddings }
  | none => s2

/-- `CacheAgent.clear`. -/
def CacheAgent.clearAgent (s : CacheAgent) : CacheAgent :=
  { s with cache := [], cacheEmbeddings := [] }

/-- The mutating operations a caller can run against one cache instance.
`get` reads but never mutates (it returns a `.copy()` of the stored dict). -/
inductive CacheOp where
  | put (query response : String) (contexts : List String) (tokenInfo : String)
  | get (query : String)
  | clear

def CacheAgent.applyOp (s : CacheAgent) : CacheOp → CacheAgent
  | .put q r c t => s.put q r c t
  | .get _ => s
  | .clear => s.clearAgent

def CacheAgent.runOps (s : CacheAgent) (ops : List CacheOp) : CacheAgent :=
  ops.foldl CacheAgent.applyOp s

/-- A fresh `CacheAgent` as built by `__init__`. -/
def initCacheAgent (embed : String → Option (List ℝ)) (maxSize : Nat)
    (thr : ℝ) : CacheAgent :=
  { cache := [], cacheEmbeddings := [], embed := embed, maxSize := maxSize
    similarityThreshold := thr }

/-! ## Manager router (src/agents/manager_agent.py) -/

/-- The metadata dict returned by `ManagerAgent.route`:
`{"needs_clarification": True}` or `{"confidence": confidence.value}`,
or `None` on the error path. -/
inductive RouteMeta where
  | needsClarification
  | confidence (level : ConfidenceLevel)
deriving DecidableEq, Repr

/-- The `(answer, contexts, meta)` triple returned by `ManagerAgent.route`. -/
structure RouteResult where
  answer : String
  passages : List String
  meta : Option RouteMeta

/-- The contextual prompt built in `ManagerAgent.route` when the memory
renders a non-empty context summary. -/
def contextualPrompt (contextSummary enrichedQuery : String) : String :=
  if contextSummary ≠ "" then
    "CONVERSATION CONTEXT:\n" ++ contextSummary ++ "\n\nCURRENT QUESTION: " ++
      enrichedQuery ++ "\n\nUse the conversation context to better understand the question."
  else enrichedQuery

/-- `ManagerAgent.route`.  The external LangGraph agent call (the answering
collaborator, tools included) is the `invoke` parameter: on success it
returns the produced message contents plus the `_last_contexts` the tools
set; `Except.error e` models `agent.invoke` raising with message `str(e)`.
The conversation memory is the only state `route` mutates; it is threaded
in and out. -/
noncomputable def ManagerAgent.route
    (invoke : String → Except String (List String × List String))
    (mem : ConversationMemory) (query : String) :
    RouteResult × ConversationMemory :=
  let mem1 := mem.addMessage "user" query
  let assessment := assessQuestion query
  let answerPath : RouteResult × ConversationMemory :=
    let enriched := mem1.enrichQuery query
    let contextSummary := mem1.getContextSummary
    let contextualQuery := contextualPrompt contextSummary enriched
    match invoke contextualQuery with
    | .error e => (⟨"Error processing query: " ++ e, [], none⟩, mem1)
    | .ok (msgs, lastContexts) =>
      let answer := match msgs.getLast? with
        | some m => m
        | none => "No response generated."
      let conf := assessAnswerConfidence query answer lastContexts
      let answer :=
        if assessment.complexity = QuestionComplexity.complex then
          if formatConfidenceIndicator conf ≠ "" then
            answer ++ "\n\n---\n*" ++ formatConfidenceIndicator conf ++ "*"
          else answer
        else answer
      let mem2 := mem1.addMessage "assistant" answer
      (⟨answer, lastContexts, some (.confidence conf)⟩, mem2)
  if assessment.needsClarification then
    match getClarificationRequest assessment query with
    | some clarification =>
      let response := "🤔 **Clarification needed:**\n\n" ++ clarification.message
      let mem2 := mem1.addMessage "assistant" response
      (⟨response, [], some .needsClarification⟩, mem2)
    | none => answerPath
  else answerPath

/-- `route` viewed against the whole per-session state (the UI keeps one
`CacheAgent` next to the manager): `route` itself contains no cache
operation, so the cache component passes through untouched. -/
noncomputable def routeSession
    (invoke : String → Except String (List String × List String))
    (cache : CacheAgent) (mem : ConversationMemory) (query : String) :
    RouteResult × ConversationMemory × CacheAgent :=
  let r := ManagerAgent.route invoke mem query
  (r.1, r.2, cache)

/-! ## Financial text-signal extractors (src/mcp/financial_tools.py)

The two dollar patterns and the percentage pattern are compiled by hand.
For these particular regexes, Python's backtracking search is equivalent to
greedy maximal-munch because every adjacent pair of sub-patterns draws from
disjoint character classes (digits/commas vs `.` vs whitespace vs letters vs
`$`); the one genuine backtrack point — the optional multiplier word before
the mandatory `dollars|$` tail of the second pattern — is modelled
explicitly.  `re.finditer` semantics: scan left to right, yield
non-overlapping matches, resume at each match end. -/

def isDigitComma (c : Char) : Bool := c.isDigit || c == ','

/-- Case-insensitive literal word at the head of the input (`word` given in
lowercase), as under `re.IGNORECASE`. -/
def atLowerWord : List Char → List Char → Bool
  | [], _ => true
  | _ :: _, [] => false
  | w :: ws, c :: cs => (w == c.toLower) && atLowerWord ws cs

/-- `(?:\.\d+)?`: number of characters consumed (0 when it does not match). -/
def matchDecimal : List Char → Nat
  | '.' :: t =>
      let k := (t.takeWhile Char.isDigit).length
      if k = 0 then 0 else k + 1
  | _ => 0

/-- The multiplier alternation `(million|billion|thousand)`, case-insensitive,
returning consumed length and the matched text. -/
def multAt (cs : List Char) : Option (Nat × List Char) :=
  if atLowerWord "million".toList cs then some (7, cs.take 7)
  else if atLowerWord "billion".toList cs then some (7, cs.take 7)
  else if atLowerWord "thousand".toList cs then some (8, cs.take 8)
  else none

/-- The mandatory tail `(?:dollars|\$)` of the second dollar pattern. -/
def tailDollars (cs : List Char) : Option Nat :=
  if atLowerWord "dollars".toList cs then some 7
  else
    match cs with
    | '$' :: _ => some 1
    | _ => none

/-- Pattern `\$\s*([\d,]+(?:\.\d+)?)\s*(million|billion|thousand)?` at the
head of the input: consumed length, group 1, group 2. -/
def matchDollarPat : List Char → Option (Nat × List Char × Option (List Char))
  | '$' :: rest =>
      let s1 := (rest.takeWhile pyIsSpace).length
      let r1 := rest.drop s1
      let d1 := (r1.takeWhile isDigitComma).length
      if d1 = 0 then none
      else
        let r2 := r1.drop d1
        let dec := matchDecimal r2
        let g1 := r1.take (d1 + dec)
        let r3 := r2.drop dec
        let s2 := (r3.takeWhile pyIsSpace).length
        let r4 := r3.drop s2
        match multAt r4 with
        | some (m, g2) => some (1 + s1 + d1 + dec + s2 + m, g1, some g2)
        | none => some (1 + s1 + d1 + dec + s2, g1, none)
  | _ => none

/-- Pattern `([\d,]+(?:\.\d+)?)\s*(million|billion|thousand)?\s*(?:dollars|\$)`
at the head of the input.  When the multiplier word matches but the mandatory
tail then fails, the regex engine backtracks and retries with the multiplier
skipped. -/
def matchNumDollarPat (cs : List Char) : Option (Nat × List Char × Option (List Char)) :=
  let d1 := (cs.takeWhile isDigitComma).length
  if d1 = 0 then none
  else
    let r1 := cs.drop d1
    let dec := matchDecimal r1
    let g1 := cs.take (d1 + dec)
    let r2 := r1.drop dec
    let s1 := (r2.takeWhile pyIsSpace).length
    let r3 := r2.drop s1
    let noMult : Option (Nat × List Char × Option (List Char)) :=
      match tailDollars r3 with
      | some t => some (d1 + dec + s1 + t, g1, none)
      | none => none
    match multAt r3 with
    | some (m, g2) =>
      let r4 := r3.drop m
      let s2 := (r4.takeWhile pyIsSpace).length
      let r5 := r4.drop s2
      match tailDollars r5 with
      | some t => some (d1 + dec + s1 + m + s2 + t, g1, some g2)
      | none => noMult
    | none => noMult

/-- Pattern `([-+]?\d+(?:\.\d+)?)\s*%` at the head of the input: consumed
length and group 1. -/
def matchPctPat (cs : List Char) : Option (Nat × List Char) :=
  let sgn : Nat := match cs with
    | '-' :: _ => 1
    | '+' :: _ => 1
    | _ => 0
  let r0 := cs.drop sgn
  let d1 := (r0.takeWhile Char.isDigit).length
  if d1 = 0 then none
  else
    let r1 := r0.drop d1
    let dec := matchDecimal r1
    let g1 := cs.take (sgn + d1 + dec)
    let r2 := r1.drop dec
    let s1 := (r2.takeWhile pyIsSpace).length
    match r2.drop s1 with
    | '%' :: _ => some (sgn + d1 + dec + s1 + 1, g1)
    | _ => none

/-- `re.finditer`: at each position try the pattern; on a match, emit
`(start, end, groups)` and resume at the match end, otherwise advance one
character.  Fuel is the input length; our patterns never match the empty
string, and an (impossible) empty match advances one character as
`finditer` would. -/
def scanAux (matcher : List Char → Option (Nat × γ)) :
    Nat → List Char → Nat → List (Nat × Nat × γ)
  | 0, _, _ => []
  | _ + 1, [], _ => []
  | fuel + 1, c :: rest, i =>
    match matcher (c :: rest) with
    | some (len, g) =>
        if len = 0 then scanAux matcher fuel rest (i + 1)
        else (i, i + len, g) :: scanAux matcher fuel ((c :: rest).drop len) (i + len)
    | none => scanAux matcher fuel rest (i + 1)

def scanMatches (matcher : List Char → Option (Nat × γ)) (cs : List Char) :
    List (Nat × Nat × γ) :=
  scanAux matcher (cs.length + 1) cs 0

/-- Decimal digit run to a natural number. -/
def digitsVal (ds : List Char) : Nat :=
  ds.foldl (fun acc c => 10 * acc + (c.toNat - '0'.toNat)) 0

/-- Python `float(s)` on the strings the dollar groups can produce after
comma removal: `""` (error), digit runs, `digits.digits`, `.digits`.
Floats are modelled as exact rationals. -/
def parseFloatQ (cs : List Char) : Option ℚ :=
  if cs.isEmpty then none
  else
    let ip := cs.takeWhile Char.isDigit
    match cs.drop ip.length with
    | [] => some (digitsVal ip : ℚ)
    | '.' :: frac =>
        if frac ≠ [] ∧ frac.all Char.isDigit then
          some ((digitsVal ip : ℚ) + (digitsVal frac : ℚ) / (10 : ℚ) ^ frac.length)
        else none
    | _ => none

/-- Python `float(s)` with an optional leading sign, for the percentage
group. -/
def parseSignedQ : List Char → Option ℚ
  | '-' :: t => (parseFloatQ t).map Neg.neg
  | '+' :: t => parseFloatQ t
  | cs => parseFloatQ cs

/-- Round to nearest integer, ties to even — the rounding of `%.2f`. -/
def roundHalfEven (q : ℚ) : ℤ :=
  let f := ⌊q⌋
  let r := q - (f : ℚ)
  if r < 1 / 2 then f
  else if 1 / 2 < r then f + 1
  else if f % 2 = 0 then f else f + 1

/-- Integer/fraction parts of `abs`-free nonnegative `%.2f` rendering. -/
def fixed2Parts (q : ℚ) : Nat × Nat :=
  let c := (roundHalfEven (q * 100)).toNat
  (c / 100, c % 100)

def pad2 (n : Nat) : String := if n < 10 then "0" ++ toString n else toString n

/-- Thousands separators, as in Python's `,` format spec. -/
def groupAux : List Char → Nat → List Char
  | [], _ => []
  | c :: t, k => if k = 3 then ',' :: c :: groupAux t 1 else c :: groupAux t (k + 1)

def groupDigits (s : String) : String :=
  String.mk ((groupAux s.toList.reverse 0).reverse)

/-- `f"{q:.2f}"` on a nonnegative rational. -/
def formatFixed2 (q : ℚ) : String :=
  toString (fixed2Parts q).1 ++ "." ++ pad2 (fixed2Parts q).2

/-- `f"${q:,.2f}"` on a nonnegative rational. -/
def formatDollar (q : ℚ) : String :=
  "$" ++ groupDigits (toString (fixed2Parts q).1) ++ "." ++ pad2 (fixed2Parts q).2

/-- `f"{v:+.2f}%"` for `v ≥ 0`, `f"{v:.2f}%"` otherwise, as in
`extract_percentages` (the float negative-zero corner is not modelled). -/
def formatPct (q : ℚ) : String :=
  if 0 ≤ q then "+" ++ formatFixed2 q ++ "%"
  else "-" ++ formatFixed2 (-q) ++ "%"

/-- `text[max(0, start-50) : min(len(text), end+50)].strip()`. -/
def contextWindow (cs : List Char) (start endPos : Nat) : String :=
  let s := start - 50
  let e := min cs.length (endPos + 50)
  pyStrip (String.mk ((cs.drop s).take (e - s)))

/-- `'billion' in multiplier_str.lower()` cascade of `extract_dollar_amounts`
(`multiplier_str` is `''` when group 2 is `None`). -/
def applyMultiplier (q : ℚ) (g2 : Option (List Char)) : ℚ :=
  let m := String.mk ((g2.getD []).map Char.toLower)
  if pyIn "billion" m then q * 1000000000
  else if pyIn "million" m then q * 1000000
  else if pyIn "thousand" m then q * 1000
  else q

structure DollarAmount where
  amount : ℚ
  formatted : String
  context : String
deriving DecidableEq, Repr

structure Percentage where
  value : ℚ
  formatted : String
  context : String
deriving DecidableEq, Repr

/-- One `{amount, formatted, context}` dict of `extract_dollar_amounts`;
`none` models the `ValueError → continue` branch. -/
def processDollarMatch (cs : List Char)
    (m : Nat × Nat × List Char × Option (List Char)) : Option DollarAmount :=
  match m with
  | (st, en, g1, g2) =>
    match parseFloatQ (g1.filter (fun c => c ≠ ',')) with
    | none => none
    | some v =>
      let amount := applyMultiplier v g2
      some ⟨amount, formatDollar amount, contextWindow cs st en⟩

/-- `extract_dollar_amounts`: both patterns scanned over the whole text, the
first pattern's matches listed first. -/
def extract_dollar_amounts (text : String) : List DollarAmount :=
  let cs := text.toList
  (scanMatches matchDollarPat cs ++ scanMatches matchNumDollarPat cs).filterMap
    (processDollarMatch cs)

/-- `extract_percentages`. -/
def extract_percentages (text : String) : List Percentage :=
  let cs := text.toList
  (scanMatches matchPctPat cs).filterMap (fun m =>
    match m with
    | (st, en, g1) =>
      match parseSignedQ g1 with
      | none => none
      | some v => some ⟨v, formatPct v, contextWindow cs st en⟩)

/-! ## Association-list lemmas -/

theorem alookup_eq_none_iff (k : String) (l : List (String × α)) :
    alookup k l = none ↔ k ∉ l.map Prod.fst := by
  induction l with
  | nil => simp [alookup]
  | cons p t ih =>
    obtain ⟨k', v⟩ := p
    by_cases h : k' = k
    · subst h
      simp [alookup]
    · simp [alookup, h, ih, Ne.symm h]

theorem odSet_keys_of_mem (k : String) (v : α) (l : List (String × α))
    (h : k ∈ l.map Prod.fst) : (odSet k v l).map Prod.fst = l.map Prod.fst := by
  induction l with
  | nil => simp at h
  | cons p t ih =>
    obtain ⟨k', v'⟩ := p
    by_cases hk : k' = k
    · subst hk
      simp [odSet]
    · simp only [List.map_cons, List.mem_cons] at h
      rcases h with h | h
      · exact absurd h.symm hk
      · simp [odSet, hk, ih h]

theorem odSet_keys_of_not_mem (k : String) (v : α) (l : List (String × α))
    (h : k ∉ l.map Prod.fst) : (odSet k v l).map Prod.fst = l.map Prod.fst ++ [k] := by
  induction l with
  | nil => simp [odSet]
  | cons p t ih =>
    obtain ⟨k', v'⟩ := p
    simp only [List.map_cons, List.mem_cons] at h
    push_neg at h
    simp [odSet, Ne.symm h.1, ih h.2]

theorem alookup_odSet_self (k : String) (v : α) (l : List (String × α)) :
    alookup k (odSet k v l) = some v := by
  induction l with
  | nil => simp [odSet, alookup]
  | cons p t ih =>
    obtain ⟨k', v'⟩ := p
    by_cases hk : k' = k
    · subst hk
      simp [odSet, alookup]
    · simp [odSet, alookup, hk, ih]

theorem alookup_eraseKey_of_none (k k0 : String) (l : List (String × α))
    (h : alookup k l = none) : alookup k (eraseKey k0 l) = none := by
  induction l with
  | nil => simpa [eraseKey] using h
  | cons p t ih =>
    obtain ⟨k', v'⟩ := p
    by_cases hk : k' = k
    · simp [alookup, hk] at h
    · simp only [alookup, if_neg hk] at h
      by_cases h0 : k' = k0
      · simpa [eraseKey, h0] using h
      · simp [eraseKey, h0, alookup, hk, ih h]

/-! ## Characterizations of `CacheAgent.put` -/

/-- The embeddings map after the eviction step of `put`. -/
def evictEmb (cache : List (String × CacheEntry)) (embs : List (String × List ℝ)) :
    List (String × List ℝ) :=
  match cache with
  | [] => embs
  | (k0, _) :: _ => eraseKey k0 embs

theorem put_cache_eq (s : CacheAgent) (q r : String) (c : List String) (t : String) :
    (s.put q r c t).cache =
      odSet (normalizeQuery q) ⟨r, c, t⟩
        (if s.maxSize ≤ s.cache.length then s.cache.tail else s.cache) := by
  unfold CacheAgent.put
  rcases hc : s.cache with _ | ⟨⟨k0, e0⟩, rest⟩ <;>
    rcases he : s.embed q with _ | emb <;>
    simp only [hc, he] <;>
    split <;> simp [hc]

theorem put_cacheEmbeddings_eq (s : CacheAgent) (q r : String) (c : List String)
    (t : String) :
    (s.put q r c t).cacheEmbeddings =
      (match s.embed q with
       | some e =>
         odSet (normalizeQuery q) e
           (if s.maxSize ≤ s.cache.length then evictEmb s.cache s.cacheEmbeddings
            else s.cacheEmbeddings)
       | none =>
         if s.maxSize ≤ s.cache.length then evictEmb s.cache s.cacheEmbeddings
         else s.cacheEmbeddings) := by
  unfold CacheAgent.put evictEmb
  rcases hc : s.cache with _ | ⟨⟨k0, e0⟩, rest⟩ <;>
    rcases he : s.embed q with _ | emb <;>
    simp only [hc, he] <;>
    split <;> simp [hc]

theorem put_maxSize (s : CacheAgent) (q r : String) (c : List String) (t : String) :
    (s.put q r c t).maxSize = s.maxSize := by
  unfold CacheAgent.put
  rcases hc : s.cache with _ | ⟨⟨k0, e0⟩, rest⟩ <;>
    rcases he : s.embed q with _ | emb <;>
    simp only [hc, he] <;>
    split <;> simp [hc]

theorem put_embed (s : CacheAgent) (q r : String) (c : List String) (t : String) :
    (s.put q r c t).embed = s.embed := by
  unfold CacheAgent.put
  rcases hc : s.cache with _ | ⟨⟨k0, e0⟩, rest⟩ <;>
    rcases he : s.embed q with _ | emb <;>
    simp only [hc, he] <;>
    split <;> simp [hc]

/-! ## C4: clarification precedence -/

/-- C4 counterexample: on "what about recent" both clarification triggers
fire, yet `assess_question` returns the vague-query question — the vague
check runs second and overwrites the relative-time question — refuting the
claim that the relative-time question wins whenever both triggers fire. -/
theorem C4_both_triggers_counterexample :
    timeTrigger "what about recent" = true ∧
    vagueTrigger "what about recent" = true ∧
    (assessQuestion "what about recent").clarificationQuestion
      = some vagueClarificationQuestion ∧
    vagueClarificationQuestion ≠ timeClarificationQuestion := by
  decide

/-- C4 (amended): `assess_question` produces at most one clarification
question; when both the relative-time and vague-query triggers fire, the
vague-query question is returned (the vague check runs last and overwrites);
the query "tell me about last year" has exactly 5 words, so only the
relative-time trigger fires and it yields the relative-time question. -/
theorem C4_clarification_precedence (q : String) :
    (assessQuestion q).needsClarification = (timeTrigger q || vagueTrigger q) ∧
    (assessQuestion q).clarificationQuestion =
      (if vagueTrigger q then some vagueClarificationQuestion
       else if timeTrigger q then some timeClarificationQuestion
       else none) ∧
    (assessQuestion "tell me about last year").clarificationQuestion
      = some timeClarificationQuestion := by
  refine ⟨?_, ?_, by decide⟩ <;>
  · simp only [assessQuestion]
    by_cases hv : vagueTrigger q = true <;> by_cases ht : timeTrigger q = true <;>
      simp_all

/-! ## C5: answer-confidence ordering -/

/-- C5: `assess_answer_confidence` checks in order: no passages ⇒ uncertain;
any uncertainty phrase ⇒ low regardless of numeric signals; digit and dollar
⇒ high; any one of digit/dollar/percent ⇒ medium; otherwise low.  An answer
holding both "$45 million" and "not found" with a passage yields low. -/
theorem C5_confidence_ordering (q a : String) (passages : List String) :
    (passages = [] → assessAnswerConfidence q a passages = .uncertain) ∧
    (passages ≠ [] → hasUncertaintyIn a = true →
      assessAnswerConfidence q a passages = .low) ∧
    (passages ≠ [] → hasUncertaintyIn a = false → hasDigitIn a = true →
      hasDollarIn a = true → assessAnswerConfidence q a passages = .high) ∧
    (passages ≠ [] → hasUncertaintyIn a = false →
      (hasDigitIn a && hasDollarIn a) = false →
      (hasDigitIn a || hasDollarIn a || hasPercentIn a) = true →
      assessAnswerConfidence q a passages = .medium) ∧
    (passages ≠ [] → hasUncertaintyIn a = false → hasDigitIn a = false →
      hasDollarIn a = false → hasPercentIn a = false →
      assessAnswerConfidence q a passages = .low) ∧
    assessAnswerConfidence "query"
      "Revenue was $45 million but the exact figure was not found." ["ctx"] = .low := by
  refine ⟨?_, ?_, ?_, ?_, ?_, by decide⟩ <;>
  · intros
    rcases passages with _ | ⟨p, ps⟩ <;> simp_all [assessAnswerConfidence]

/-- C5 witness: the theorem applied at concrete inputs — an uncertainty
phrase forces low even next to numbers, and digit plus dollar give high. -/
theorem C5_confidence_ordering_witness :
    assessAnswerConfidence "q" "It may be $5" ["p"] = .low ∧
    assessAnswerConfidence "q" "Revenue was $45 million." ["p"] = .high := by
  constructor
  · exact (C5_confidence_ordering "q" "It may be $5" ["p"]).2.1 (by decide) (by decide)
  · exact (C5_confidence_ordering "q" "Revenue was $45 million." ["p"]).2.2.1
      (by decide) (by decide) (by decide) (by decide)

/-! ## C9: deterministic, idempotent text extraction -/

/-- C9: the text-signal extractors are pure functions of the text alone —
invoking `extract_dollar_amounts` twice on identical texts yields identical
ordered result lists (likewise `extract_percentages`), there is no hidden
state, and the result of either extractor is unaffected by invoking the
other first (both are functions of the text only).  Two concrete runs show
the embedding computing actual ordered matches. -/
theorem C9_extraction_deterministic (text1 text2 : String) (h : text1 = text2) :
    extract_dollar_amounts text1 = extract_dollar_amounts text2 ∧
    extract_percentages text1 = extract_percentages text2 ∧
    (extract_dollar_amounts text1, extract_percentages text1)
      = (extract_dollar_amounts text2, extract_percentages text2) ∧
    (extract_dollar_amounts "$45 and 7 dollars").map (fun d => (d.amount, d.context))
      = [(45, "$45 and 7 dollars"), (7, "$45 and 7 dollars")] ∧
    (extract_percentages "up 5% and -3 %").map (fun p => (p.value, p.context))
      = [(5, "up 5% and -3 %"), (-3, "up 5% and -3 %")] := by
  subst h
  exact ⟨rfl, rfl, rfl, by decide, by decide⟩

/-- C9 witness: the theorem applied to two identical concrete texts. -/
theorem C9_extraction_deterministic_witness :
    extract_dollar_amounts "$45 and 7 dollars" = extract_dollar_amounts "$45 and 7 dollars" ∧
    (extract_percentages "up 5% and -3 %").map (fun p => (p.value, p.context))
      = [(5, "up 5% and -3 %"), (-3, "up 5% and -3 %")] :=
  ⟨(C9_extraction_deterministic "$45 and 7 dollars" "$45 and 7 dollars" rfl).1,
   (C9_extraction_deterministic "x" "x" rfl).2.2.2.2⟩

/-! ## C6: memory window invariant -/

theorem trim_small (w : Nat) (l : List ChatMsg) (h : l.length ≤ w * 2) :
    trimToWindow w l = l := by
  unfold trimToWindow
  rw [if_neg (by omega)]

theorem trim_drop (w : Nat) (hw : 1 ≤ w) (l : List ChatMsg)
    (h : l.length = w * 2 + 1) : trimToWindow w l = l.drop 1 := by
  unfold trimToWindow
  rw [if_pos (by omega), if_neg (by omega)]
  congr 1
  omega

theorem trim_length (w : Nat) (hw : 1 ≤ w) (l : List ChatMsg) :
    (trimToWindow w l).length = min l.length (w * 2) := by
  unfold trimToWindow
  by_cases h : w * 2 < l.length
  · rw [if_pos h, if_neg (by omega)]
    simp only [List.length_drop]
    omega
  · rw [if_neg h]
    omega

theorem addMessage_length_le (m : ConversationMemory) (role content : String)
    (hw : 1 ≤ m.windowSize) (_h : m.messages.length ≤ 2 * m.windowSize) :
    (m.addMessage role content).messages.length ≤ 2 * m.windowSize := by
  unfold ConversationMemory.addMessage ConversationMemory.addUserMessage
    ConversationMemory.addAiMessage
  split <;> simp only [trim_length m.windowSize hw] <;> simp <;> omega

theorem flatPairs_length (q : List (String × String)) :
    (flatPairs q).length = 2 * q.length := by
  induction q with
  | nil => simp [flatPairs]
  | cons p t ih =>
    obtain ⟨u, a⟩ := p
    simp [flatPairs, ih]
    omega

theorem flatPairs_append (q r : List (String × String)) :
    flatPairs (q ++ r) = flatPairs q ++ flatPairs r := by
  induction q with
  | nil => simp [flatPairs]
  | cons p t ih =>
    obtain ⟨u, a⟩ := p
    simp [flatPairs, ih]

theorem addPair_messages (m : ConversationMemory) (u a : String) :
    addPair m (u, a) =
      ⟨m.windowSize, trimToWindow m.windowSize
        (trimToWindow m.windowSize (m.messages ++ [.human u]) ++ [.ai a])⟩ := by
  simp [addPair, ConversationMemory.addMessage, ConversationMemory.addUserMessage,
    ConversationMemory.addAiMessage]

theorem addPair_flat_lt (w : Nat) (q : List (String × String)) (hq : q.length < w)
    (u a : String) :
    addPair ⟨w, flatPairs q⟩ (u, a) = ⟨w, flatPairs (q ++ [(u, a)])⟩ := by
  rw [addPair_messages]
  have h1 : trimToWindow w (flatPairs q ++ [ChatMsg.human u])
      = flatPairs q ++ [ChatMsg.human u] :=
    trim_small _ _ (by simp [flatPairs_length]; omega)
  rw [h1]
  have h2 : trimToWindow w ((flatPairs q ++ [ChatMsg.human u]) ++ [ChatMsg.ai a])
      = (flatPairs q ++ [ChatMsg.human u]) ++ [ChatMsg.ai a] :=
    trim_small _ _ (by simp [flatPairs_length]; omega)
  rw [h2, flatPairs_append]
  simp [flatPairs]

theorem addPair_flat_eq (w : Nat) (hw : 1 ≤ w) (pu pa : String)
    (q' : List (String × String)) (hq : q'.length + 1 = w) (u a : String) :
    addPair ⟨w, flatPairs ((pu, pa) :: q')⟩ (u, a)
      = ⟨w, flatPairs (q' ++ [(u, a)])⟩ := by
  rw [addPair_messages]
  have h1 : trimToWindow w (flatPairs ((pu, pa) :: q') ++ [ChatMsg.human u])
      = ChatMsg.ai pa :: (flatPairs q' ++ [ChatMsg.human u]) := by
    rw [trim_drop w hw _ (by simp [flatPairs_length, flatPairs]; omega)]
    simp [flatPairs]
  rw [h1]
  have h2 : trimToWindow w ((ChatMsg.ai pa :: (flatPairs q' ++ [ChatMsg.human u]))
        ++ [ChatMsg.ai a])
      = flatPairs q' ++ [ChatMsg.human u] ++ [ChatMsg.ai a] := by
    rw [trim_drop w hw _ (by simp [flatPairs_length]; omega)]
    simp
  rw [h2, flatPairs_append]
  simp [flatPairs]

theorem foldl_addPair_small (ps : List (String × String)) :
    ∀ (q : List (String × String)) (w : Nat), q.length + ps.length ≤ w →
      ps.foldl addPair ⟨w, flatPairs q⟩ = ⟨w, flatPairs (q ++ ps)⟩ := by
  induction ps with
  | nil => intro q w _; simp
  | cons p t ih =>
    intro q w h
    obtain ⟨u, a⟩ := p
    rw [List.foldl_cons, addPair_flat_lt w q (by simp at h; omega) u a,
      ih (q ++ [(u, a)]) w (by simp; simp at h; omega)]
    simp

/-- C6 counterexample: with `windowSize = 0` Python's slice
`messages[-(0*2):]` is the whole list, so nothing is ever trimmed and the
first `addMessage` already leaves more than `2 × windowSize = 0` turns —
refuting the bound as a statement over every window size. -/
theorem C6_window_zero_counterexample :
    ((⟨0, []⟩ : ConversationMemory).addMessage "user" "hi").messages.length = 1 ∧
    ¬ (((⟨0, []⟩ : ConversationMemory).addMessage "user" "hi").messages.length
        ≤ 2 * (⟨0, []⟩ : ConversationMemory).windowSize) := by
  decide

theorem foldl_addPair_full (w : Nat) (hw : 1 ≤ w) (ps : List (String × String))
    (hlen : ps.length = w + 1) :
    (ps.foldl addPair ⟨w, []⟩).messages = flatPairs (ps.drop 1) := by
  have hne : ps ≠ [] := by
    intro hc
    rw [hc] at hlen
    simp at hlen
  have hsplit : ps = ps.dropLast ++ [ps.getLast hne] :=
    (List.dropLast_append_getLast hne).symm
  have hdl : ps.dropLast.length = w := by
    simp [List.length_dropLast, hlen]
  rcases hq : ps.dropLast with _ | ⟨⟨pu, pa⟩, q'⟩
  · rw [hq] at hdl
    simp at hdl
    omega
  · obtain ⟨lu, la, hlast⟩ : ∃ lu la, ps.getLast hne = (lu, la) :=
      ⟨(ps.getLast hne).1, (ps.getLast hne).2, by simp⟩
    rw [hlast] at hsplit
    conv_lhs => rw [hsplit]
    rw [List.foldl_append]
    have hfirst : ps.dropLast.foldl addPair ⟨w, []⟩ = ⟨w, flatPairs ps.dropLast⟩ := by
      have h0 := foldl_addPair_small ps.dropLast [] w (by simp [hdl])
      simpa [flatPairs] using h0
    rw [hfirst, hq]
    have hq' : q'.length + 1 = w := by
      rw [hq] at hdl
      simpa using hdl
    calc ([(lu, la)].foldl addPair ⟨w, flatPairs ((pu, pa) :: q')⟩).messages
        = (addPair ⟨w, flatPairs ((pu, pa) :: q')⟩ (lu, la)).messages := by
          rw [List.foldl_cons, List.foldl_nil]
      _ = flatPairs (q' ++ [(lu, la)]) := by
          rw [addPair_flat_eq w hw pu pa q' hq' lu la]
      _ = flatPairs (ps.drop 1) := by
          conv_rhs => rw [hsplit, hq]
          simp

/-- C6 (amended): for `windowSize ≥ 1` — the bound fails at `windowSize = 0`
where the Python slice `[-0:]` keeps everything — every `addMessage` keeps
the log at no more than `2 × windowSize` turns, and appending
`windowSize + 1` user/assistant pairs into a fresh memory leaves exactly the
flattened pairs with the first pair dropped: length `2 × windowSize`, the
first-appended pair absent, every later pair present in original order. -/
theorem C6_memory_window (w : Nat) (hw : 1 ≤ w) (ps : List (String × String))
    (hlen : ps.length = w + 1) :
    (ps.foldl addPair ⟨w, []⟩).messages = flatPairs (ps.drop 1) ∧
    (ps.foldl addPair ⟨w, []⟩).messages.length = 2 * w ∧
    (∀ (m : ConversationMemory) (role content : String), 1 ≤ m.windowSize →
      m.messages.length ≤ 2 * m.windowSize →
      (m.addMessage role content).messages.length ≤ 2 * m.windowSize) := by
  have hmain := foldl_addPair_full w hw ps hlen
  refine ⟨hmain, ?_, fun m role content => addMessage_length_le m role content⟩
  rw [hmain, flatPairs_length, List.length_drop, hlen]
  omega

/-- C6 witness: window size 1, two appended pairs — only the second pair is
retained. -/
theorem C6_memory_window_witness :
    ([("u1", "a1"), ("u2", "a2")].foldl addPair ⟨1, []⟩).messages
      = [ChatMsg.human "u2", ChatMsg.ai "a2"] ∧
    ([("u1", "a1"), ("u2", "a2")].foldl addPair ⟨1, []⟩).messages.length = 2 * 1 := by
  have h := C6_memory_window 1 (by decide) [("u1", "a1"), ("u2", "a2")] (by decide)
  exact ⟨h.1.trans (by decide), h.2.1⟩

/-! ## C1: eviction on overwrite at capacity -/

/-- An embedder that always fails, as `_embed` behaves when the external
model raises. -/
def embNone : String → Option (List ℝ) := fun _ => none

/-- A cache at capacity 2 holding keys "a" (oldest) and "b". -/
noncomputable def c1Agent : CacheAgent :=
  { cache := [("a", ⟨"ra", ["ca"], "ta"⟩), ("b", ⟨"rb", ["cb"], "tb"⟩)]
    cacheEmbeddings := []
    embed := embNone
    maxSize := 2
    similarityThreshold := 0.8 }

/-- C1 counterexample: a cache at capacity whose incoming normalized key "b"
is already present.  `put` still evicts the oldest entry "a" before
overwriting, so the set of cached keys shrinks from \x7ba, b\x7d to \x7bb\x7d —
refuting the claim that such a `put` leaves the key set unchanged. -/
theorem C1_overwrite_evicts_counterexample :
    c1Agent.cache.length = c1Agent.maxSize ∧
    normalizeQuery "b" ∈ c1Agent.cache.map Prod.fst ∧
    c1Agent.cache.map Prod.fst = ["a", "b"] ∧
    (c1Agent.put "b" "rb2" [] "tb2").cache.map Prod.fst = ["b"] := by
  decide

/-- C1 (amended): at capacity, `put` evicts the single oldest entry first
even when the incoming normalized key is already cached.  The key set is
preserved only when the incoming key is itself the oldest entry (evicted and
re-appended at the end); for any other already-present key the oldest key is
removed while the incoming key is overwritten in place, so the cache shrinks
by one entry. -/
theorem C1_put_at_capacity_existing_key (s : CacheAgent) (q r : String)
    (c : List String) (t : String) (k0 : String) (e0 : CacheEntry)
    (rest : List (String × CacheEntry))
    (hcap : s.maxSize ≤ s.cache.length)
    (hcache : s.cache = (k0, e0) :: rest)
    (hmem : normalizeQuery q ∈ s.cache.map Prod.fst) :
    (normalizeQuery q = k0 → normalizeQuery q ∉ rest.map Prod.fst →
      (s.put q r c t).cache.map Prod.fst = rest.map Prod.fst ++ [k0]) ∧
    (normalizeQuery q ≠ k0 →
      (s.put q r c t).cache.map Prod.fst = rest.map Prod.fst) := by
  have hput := put_cache_eq s q r c t
  rw [if_pos hcap, hcache, List.tail_cons] at hput
  constructor
  · intro hk hnot
    rw [hput, odSet_keys_of_not_mem _ _ _ hnot, hk]
  · intro hk
    have hmem' : normalizeQuery q ∈ rest.map Prod.fst := by
      rw [hcache] at hmem
      simpa [hk] using hmem
    rw [hput, odSet_keys_of_mem _ _ _ hmem']

/-- C1 witness: the amended theorem applied to `c1Agent` — overwriting "b"
drops "a" and leaves only "b"; overwriting the oldest key "a" keeps both
keys, with "a" re-inserted at the end. -/
theorem C1_put_at_capacity_existing_key_witness :
    (c1Agent.put "b" "rb2" [] "tb2").cache.map Prod.fst = ["b"] ∧
    (c1Agent.put "a" "ra2" [] "ta2").cache.map Prod.fst = ["b", "a"] := by
  constructor
  · have h := (C1_put_at_capacity_existing_key c1Agent "b" "rb2" [] "tb2" "a"
      ⟨"ra", ["ca"], "ta"⟩ [("b", ⟨"rb", ["cb"], "tb"⟩)] (by decide) rfl
      (by decide)).2 (by decide)
    simpa using h
  · have h := (C1_put_at_capacity_existing_key c1Agent "a" "ra2" [] "ta2" "a"
      ⟨"ra", ["ca"], "ta"⟩ [("b", ⟨"rb", ["cb"], "tb"⟩)] (by decide) rfl
      (by decide)).1 (by decide) (by decide)
    simpa using h

/-! ## C2: capacity invariant -/

theorem put_fresh_no_evict (s : CacheAgent) (q r : String) (c : List String)
    (t : String) (hlt : ¬ s.maxSize ≤ s.cache.length)
    (hfresh : normalizeQuery q ∉ s.cache.map Prod.fst) :
    (s.put q r c t).cache.map Prod.fst
      = s.cache.map Prod.fst ++ [normalizeQuery q] := by
  rw [put_cache_eq, if_neg hlt, odSet_keys_of_not_mem _ _ _ hfresh]

/-- The `capacity + 1` distinct-put scenario of the spec, folded through
`CacheAgent.put` from a fresh agent. -/
def putSeq (emb : String → Option (List ℝ)) (cap : Nat) (thr : ℝ)
    (resp : String → String) (ctxs : String → List String)
    (toks : String → String) (qs : List String) : CacheAgent :=
  qs.foldl (fun a q => a.put q (resp q) (ctxs q) (toks q)) (initCacheAgent emb cap thr)

theorem foldPuts_fresh (resp : String → String) (ctxs : String → List String)
    (toks : String → String) (qs : List String) :
    ∀ s : CacheAgent, s.cache.length + qs.length ≤ s.maxSize →
      (qs.map normalizeQuery).Nodup →
      (∀ k ∈ qs.map normalizeQuery, k ∉ s.cache.map Prod.fst) →
      ((qs.foldl (fun a q => a.put q (resp q) (ctxs q) (toks q)) s).cache.map Prod.fst
        = s.cache.map Prod.fst ++ qs.map normalizeQuery) ∧
      (qs.foldl (fun a q => a.put q (resp q) (ctxs q) (toks q)) s).maxSize
        = s.maxSize := by
  induction qs with
  | nil =>
    intro s _ _ _
    simp
  | cons q tl ih =>
    intro s h hnd hfresh
    rw [List.foldl_cons]
    have hlt : ¬ s.maxSize ≤ s.cache.length := by
      simp only [List.length_cons] at h
      omega
    have hq : normalizeQuery q ∉ s.cache.map Prod.fst :=
      hfresh _ (by simp)
    have hkeys1 : (s.put q (resp q) (ctxs q) (toks q)).cache.map Prod.fst
        = s.cache.map Prod.fst ++ [normalizeQuery q] :=
      put_fresh_no_evict s q (resp q) (ctxs q) (toks q) hlt hq
    have hmax1 : (s.put q (resp q) (ctxs q) (toks q)).maxSize = s.maxSize :=
      put_maxSize s q (resp q) (ctxs q) (toks q)
    have hlen1 : (s.put q (resp q) (ctxs q) (toks q)).cache.length
        = s.cache.length + 1 := by
      have h2 := congrArg List.length hkeys1
      simpa using h2
    have hnd' : (tl.map normalizeQuery).Nodup := by
      simp only [List.map_cons, List.nodup_cons] at hnd
      exact hnd.2
    have hq_notin_tl : normalizeQuery q ∉ tl.map normalizeQuery := by
      simp only [List.map_cons, List.nodup_cons] at hnd
      exact hnd.1
    obtain ⟨ih1, ih2⟩ := ih (s.put q (resp q) (ctxs q) (toks q))
      (by rw [hlen1, hmax1]; simp only [List.length_cons] at h; omega)
      hnd'
      (by
        intro k hk
        rw [hkeys1]
        simp only [List.mem_append, List.mem_singleton]
        push_neg
        refine ⟨hfresh _ (by simp [hk]), ?_⟩
        intro hkq
        rw [hkq] at hk
        exact hq_notin_tl hk)
    refine ⟨?_, ih2.trans hmax1⟩
    rw [ih1, hkeys1]
    simp

theorem applyOp_maxSize (s : CacheAgent) (op : CacheOp) :
    (s.applyOp op).maxSize = s.maxSize := by
  cases op with
  | put q r c t => exact put_maxSize s q r c t
  | get q => rfl
  | clear => rfl

theorem put_preserves_inv (s : CacheAgent) (q r : String) (c : List String)
    (t : String) (hmax : 1 ≤ s.maxSize) (hlen : s.cache.length ≤ s.maxSize)
    (hnd : (s.cache.map Prod.fst).Nodup) :
    (s.put q r c t).cache.length ≤ s.maxSize ∧
    ((s.put q r c t).cache.map Prod.fst).Nodup := by
  have hput := put_cache_eq s q r c t
  by_cases hcap : s.maxSize ≤ s.cache.length
  · rcases hc : s.cache with _ | ⟨⟨k0, e0⟩, rest⟩
    · rw [hc] at hcap
      simp at hcap
      omega
    · rw [if_pos hcap, hc, List.tail_cons] at hput
      have hnd' : (rest.map Prod.fst).Nodup := by
        rw [hc] at hnd
        simp only [List.map_cons, List.nodup_cons] at hnd
        exact hnd.2
      have hrestlen : rest.length + 1 ≤ s.maxSize := by
        rw [hc] at hlen
        simpa using hlen
      by_cases hm : normalizeQuery q ∈ rest.map Prod.fst
      · have hkeys : (s.put q r c t).cache.map Prod.fst = rest.map Prod.fst := by
          rw [hput, odSet_keys_of_mem _ _ _ hm]
        constructor
        · have h2 := congrArg List.length hkeys
          simp only [List.length_map] at h2
          omega
        · rw [hkeys]
          exact hnd'
      · have hkeys : (s.put q r c t).cache.map Prod.fst
            = rest.map Prod.fst ++ [normalizeQuery q] := by
          rw [hput, odSet_keys_of_not_mem _ _ _ hm]
        constructor
        · have h2 := congrArg List.length hkeys
          simp only [List.length_map, List.length_append, List.length_singleton] at h2
          omega
        · rw [hkeys]
          simp [List.nodup_append, hnd', hm]
  · rw [if_neg hcap] at hput
    by_cases hm : normalizeQuery q ∈ s.cache.map Prod.fst
    · have hkeys : (s.put q r c t).cache.map Prod.fst = s.cache.map Prod.fst := by
        rw [hput, odSet_keys_of_mem _ _ _ hm]
      constructor
      · have h2 := congrArg List.length hkeys
        simp only [List.length_map] at h2
        omega
      · rw [hkeys]
        exact hnd
    · have hkeys : (s.put q r c t).cache.map Prod.fst
          = s.cache.map Prod.fst ++ [normalizeQuery q] := by
        rw [hput, odSet_keys_of_not_mem _ _ _ hm]
      constructor
      · have h2 := congrArg List.length hkeys
        simp only [List.length_map, List.length_append, List.length_singleton] at h2
        omega
      · rw [hkeys]
        simp [List.nodup_append, hnd, hm]

theorem runOps_inv (ops : List CacheOp) :
    ∀ s : CacheAgent, 1 ≤ s.maxSize → s.cache.length ≤ s.maxSize →
      ((s.cache.map Prod.fst).Nodup) →
      ((s.runOps ops).cache.length ≤ s.maxSize ∧
       ((s.runOps ops).cache.map Prod.fst).Nodup) := by
  induction ops with
  | nil =>
    intro s _ h1 h2
    exact ⟨h1, h2⟩
  | cons op tl ih =>
    intro s hm h1 h2
    have hstep : s.runOps (op :: tl) = (s.applyOp op).runOps tl := by
      simp [CacheAgent.runOps]
    rw [hstep]
    have hmax := applyOp_maxSize s op
    cases op with
    | put q r c t =>
      obtain ⟨l1, l2⟩ := put_preserves_inv s q r c t hm h1 h2
      have := ih (s.applyOp (.put q r c t))
        (by rw [hmax]; exact hm)
        (by rw [hmax]; exact l1)
        l2
      rw [hmax] at this
      exact this
    | get q => exact ih s hm h1 h2
    | clear =>
      have := ih (s.clearAgent) (by exact hm) (by simp [CacheAgent.clearAgent])
        (by simp [CacheAgent.clearAgent])
      exact this

theorem initCacheAgent_cache (emb : String → Option (List ℝ)) (cap : Nat)
    (thr : ℝ) : (initCacheAgent emb cap thr).cache = [] := rfl

theorem initCacheAgent_maxSize (emb : String → Option (List ℝ)) (cap : Nat)
    (thr : ℝ) : (initCacheAgent emb cap thr).maxSize = cap := rfl

/-- C2: capacity invariant.  After `capacity + 1` puts with pairwise-distinct
normalized keys into a fresh cache (capacity ≥ 1), the cached keys are
exactly the later `capacity` normalized keys in insertion order — so the
size equals the capacity, the first-inserted key is absent and every later
key present — and after every sequence of put/get/clear operations the entry
count stays ≤ capacity with at most one entry per normalized key. -/
theorem C2_capacity_invariant (cap : Nat) (hcap : 1 ≤ cap) (thr : ℝ)
    (emb : String → Option (List ℝ)) (resp : String → String)
    (ctxs : String → List String) (toks : String → String)
    (qs : List String) (hlen : qs.length = cap + 1)
    (hnd : (qs.map normalizeQuery).Nodup) :
    (putSeq emb cap thr resp ctxs toks qs).cache.map Prod.fst
        = (qs.map normalizeQuery).drop 1 ∧
    (putSeq emb cap thr resp ctxs toks qs).cache.length = cap ∧
    (∀ k1, (qs.map normalizeQuery).head? = some k1 →
      k1 ∉ (putSeq emb cap thr resp ctxs toks qs).cache.map Prod.fst) ∧
    (∀ ops : List CacheOp,
      ((initCacheAgent emb cap thr).runOps ops).cache.length ≤ cap ∧
      (((initCacheAgent emb cap thr).runOps ops).cache.map Prod.fst).Nodup) := by
  have hne : qs ≠ [] := by
    intro hc
    rw [hc] at hlen
    simp at hlen
  have hsplit : qs = qs.dropLast ++ [qs.getLast hne] :=
    (List.dropLast_append_getLast hne).symm
  have hdl : qs.dropLast.length = cap := by simp [hlen]
  have hmapsplit : qs.map normalizeQuery
      = qs.dropLast.map normalizeQuery ++ [normalizeQuery (qs.getLast hne)] := by
    conv_lhs => rw [hsplit]
    simp
  have hndparts := List.nodup_append.mp (hmapsplit ▸ hnd)
  have hndDL : (qs.dropLast.map normalizeQuery).Nodup := hndparts.1
  have hlast_not : normalizeQuery (qs.getLast hne) ∉ qs.dropLast.map normalizeQuery := by
    intro hmem
    exact hndparts.2.2 hmem (List.mem_singleton.mpr rfl)
  obtain ⟨hkeys1, hmax1⟩ := foldPuts_fresh resp ctxs toks qs.dropLast
    (initCacheAgent emb cap thr) (by simp [initCacheAgent, hdl]) hndDL
    (by intro k _; simp [initCacheAgent])
  simp only [initCacheAgent_cache, initCacheAgent_maxSize, List.map_nil,
    List.nil_append] at hkeys1 hmax1
  have hfold : putSeq emb cap thr resp ctxs toks qs
      = (qs.dropLast.foldl (fun a q => a.put q (resp q) (ctxs q) (toks q))
          (initCacheAgent emb cap thr)).put (qs.getLast hne)
          (resp (qs.getLast hne)) (ctxs (qs.getLast hne)) (toks (qs.getLast hne)) := by
    unfold putSeq
    conv_lhs => rw [hsplit]
    rw [List.foldl_append]
    simp
  set s1 := qs.dropLast.foldl (fun a q => a.put q (resp q) (ctxs q) (toks q))
    (initCacheAgent emb cap thr) with hs1
  have hlen1 : s1.cache.length = cap := by
    have h2 := congrArg List.length hkeys1
    simp only [List.length_map] at h2
    rw [h2, hdl]
  have hcap1 : s1.maxSize ≤ s1.cache.length := by
    rw [hmax1, hlen1]
  rcases hc1 : s1.cache with _ | ⟨⟨k0, e0⟩, rest⟩
  · rw [hc1] at hlen1
    simp at hlen1
    omega
  · have hput := put_cache_eq s1 (qs.getLast hne) (resp (qs.getLast hne))
      (ctxs (qs.getLast hne)) (toks (qs.getLast hne))
    rw [if_pos hcap1, hc1, List.tail_cons] at hput
    have hkeyscons : k0 :: rest.map Prod.fst = qs.dropLast.map normalizeQuery := by
      rw [← hkeys1, hc1]
      simp
    have hconslist : qs.map normalizeQuery
        = k0 :: (rest.map Prod.fst ++ [normalizeQuery (qs.getLast hne)]) := by
      rw [hmapsplit, ← hkeyscons]
      simp
    have hlast_not_rest : normalizeQuery (qs.getLast hne) ∉ rest.map Prod.fst := by
      intro hmem
      refine hlast_not ?_
      rw [← hkeyscons]
      simp [hmem]
    have hkeysF : (putSeq emb cap thr resp ctxs toks qs).cache.map Prod.fst
        = rest.map Prod.fst ++ [normalizeQuery (qs.getLast hne)] := by
      rw [hfold, hput, odSet_keys_of_not_mem _ _ _ hlast_not_rest]
    refine ⟨?_, ?_, ?_, ?_⟩
    · rw [hkeysF, hconslist]
      simp
    · have h2 := congrArg List.length hkeysF
      simp only [List.length_map, List.length_append, List.length_singleton] at h2
      have h3 := congrArg List.length hkeyscons
      simp only [List.length_cons, List.length_map, hdl] at h3
      omega
    · intro k1 hk1
      rw [hconslist] at hk1
      simp only [List.head?_cons, Option.some.injEq] at hk1
      rw [hkeysF, ← hk1]
      rw [hconslist] at hnd
      exact (List.nodup_cons.mp hnd).1
    · intro ops
      have h4 := runOps_inv ops (initCacheAgent emb cap thr)
        (by simpa [initCacheAgent] using hcap) (by simp [initCacheAgent])
        (by simp [initCacheAgent])
      simpa [initCacheAgent] using h4

/-- C2 witness: capacity 1 and queries "a", "b" — only key "b" survives; a
two-put operation sequence respects the bound. -/
theorem C2_capacity_invariant_witness :
    (putSeq embNone 1 1 (fun _ => "r") (fun _ => []) (fun _ => "t")
        ["a", "b"]).cache.map Prod.fst = ["b"] ∧
    (putSeq embNone 1 1 (fun _ => "r") (fun _ => []) (fun _ => "t")
        ["a", "b"]).cache.length = 1 ∧
    ((initCacheAgent embNone 1 1).runOps
        [.put "x" "r" [] "t", .put "y" "r" [] "t"]).cache.length ≤ 1 := by
  have h := C2_capacity_invariant 1 (by decide) 1 embNone (fun _ => "r")
    (fun _ => []) (fun _ => "t") ["a", "b"] (by decide) (by decide)
  exact ⟨h.1.trans (by decide), h.2.1,
    (h.2.2.2 [.put "x" "r" [] "t", .put "y" "r" [] "t"]).1⟩

/-! ## C7: embedder-failure degradation -/

/-- C7: when the embedder raises (modelled as `embed q = none`), no cache
operation aborts: `get` still returns the exact-match hit with similarity 1
when the normalized key is cached, returns a plain miss otherwise (the
similarity scan is skipped), and `put` still stores the full entry under the
normalized key while adding no embedding under any key. -/
theorem C7_embed_failure_degrades (s : CacheAgent) (q r : String)
    (c : List String) (t : String) (hemb : s.embed q = none) :
    (∀ d : CacheEntry, alookup (normalizeQuery q) s.cache = some d →
      s.get q = some ⟨d.response, d.contexts, d.tokenInfo, 1⟩) ∧
    (alookup (normalizeQuery q) s.cache = none → s.get q = none) ∧
    (alookup (normalizeQuery q) ((s.put q r c t).cache) = some ⟨r, c, t⟩) ∧
    (∀ k, alookup k s.cacheEmbeddings = none →
      alookup k ((s.put q r c t).cacheEmbeddings) = none) := by
  refine ⟨?_, ?_, ?_, ?_⟩
  · intro d hd
    simp [CacheAgent.get, hd]
  · intro hd
    simp [CacheAgent.get, hd, hemb]
  · rw [put_cache_eq]
    exact alookup_odSet_self _ _ _
  · intro k hk
    rw [put_cacheEmbeddings_eq]
    simp only [hemb]
    by_cases hcap : s.maxSize ≤ s.cache.length
    · rw [if_pos hcap]
      rcases hc : s.cache with _ | ⟨⟨k0, e0⟩, rest⟩
      · simpa [evictEmb] using hk
      · simpa [evictEmb] using alookup_eraseKey_of_none k k0 _ hk
    · rw [if_neg hcap]
      exact hk

/-- A one-entry cache whose embedder always fails. -/
noncomputable def c7Agent : CacheAgent :=
  { cache := [("hello", ⟨"rh", ["ch"], "th"⟩)]
    cacheEmbeddings := []
    embed := embNone
    maxSize := 5
    similarityThreshold := 0.8 }

/-- C7 witness: the theorem applied at a failing embedder — normalized exact
match still hits with similarity 1, a different query misses, and a fresh
put stores the entry with no embedding. -/
theorem C7_embed_failure_degrades_witness :
    c7Agent.get "  HELLO " = some ⟨"rh", ["ch"], "th", 1⟩ ∧
    c7Agent.get "other" = none ∧
    alookup (normalizeQuery "New Query") ((c7Agent.put "New Query" "r2" [] "t2").cache)
      = some ⟨"r2", [], "t2"⟩ ∧
    alookup (normalizeQuery "New Query")
      ((c7Agent.put "New Query" "r2" [] "t2").cacheEmbeddings) = none := by
  refine ⟨?_, ?_, ?_, ?_⟩
  · exact (C7_embed_failure_degrades c7Agent "  HELLO " "x" [] "x" rfl).1
      ⟨"rh", ["ch"], "th"⟩ (by decide)
  · exact (C7_embed_failure_degrades c7Agent "other" "x" [] "x" rfl).2.1 (by decide)
  · exact (C7_embed_failure_degrades c7Agent "New Query" "r2" [] "t2" rfl).2.2.1
  · exact (C7_embed_failure_degrades c7Agent "New Query" "r2" [] "t2" rfl).2.2.2
      _ (by decide)

/-! ## Similarity-scan lemmas for `CacheAgent.get` -/

theorem scan_stays (thr : ℝ) (qe : List ℝ) (l : List (String × List ℝ)) :
    ∀ acc : Option String × ℝ, (∀ p ∈ l, cosine qe p.2 ≤ acc.2) →
      List.foldl (simStep thr qe) acc l = acc := by
  induction l with
  | nil => intro acc _; rfl
  | cons p0 t ih =>
    intro acc h
    rw [List.foldl_cons]
    have hstep : simStep thr qe acc p0 = acc := by
      unfold simStep
      rw [if_neg]
      rintro ⟨_, h2⟩
      exact absurd h2 (not_lt.mpr (h p0 (by simp)))
    rw [hstep]
    exact ih acc (fun p' hp' => h p' (by simp [hp']))

theorem scan_below (thr : ℝ) (qe : List ℝ) (l : List (String × List ℝ)) :
    ∀ acc : Option String × ℝ, (∀ p ∈ l, cosine qe p.2 < thr) →
      List.foldl (simStep thr qe) acc l = acc := by
  induction l with
  | nil => intro acc _; rfl
  | cons p0 t ih =>
    intro acc h
    rw [List.foldl_cons]
    have hstep : simStep thr qe acc p0 = acc := by
      unfold simStep
      rw [if_neg]
      rintro ⟨h1, _⟩
      exact absurd h1 (not_le.mpr (h p0 (by simp)))
    rw [hstep]
    exact ih acc (fun p' hp' => h p' (by simp [hp']))

theorem scan_hit (thr : ℝ) (qe : List ℝ) (l : List (String × List ℝ)) :
    ∀ (acc : Option String × ℝ) (M : ℝ), thr ≤ M → acc.2 < M →
      (∀ p ∈ l, cosine qe p.2 ≤ M) → (∃ p ∈ l, cosine qe p.2 = M) →
      ∃ p ∈ l, cosine qe p.2 = M ∧
        List.foldl (simStep thr qe) acc l = (some p.1, M) := by
  induction l with
  | nil =>
    intro acc M _ _ _ hex
    simp at hex
  | cons p0 t ih =>
    intro acc M hthr hacc hle hex
    rw [List.foldl_cons]
    by_cases hc : thr ≤ cosine qe p0.2 ∧ acc.2 < cosine qe p0.2
    · have hstep : simStep thr qe acc p0 = (some p0.1, cosine qe p0.2) := by
        unfold simStep
        rw [if_pos hc]
      rw [hstep]
      by_cases hM : cosine qe p0.2 = M
      · refine ⟨p0, by simp, hM, ?_⟩
        have hrest := scan_stays thr qe t (some p0.1, cosine qe p0.2)
          (fun p' hp' => by
            show cosine qe p'.2 ≤ cosine qe p0.2
            rw [hM]
            exact hle p' (by simp [hp']))
        rw [hrest, hM]
      · have hM' : cosine qe p0.2 < M := lt_of_le_of_ne (hle p0 (by simp)) hM
        have hex' : ∃ p ∈ t, cosine qe p.2 = M := by
          rcases hex with ⟨p, hp, hpM⟩
          rcases List.mem_cons.mp hp with rfl | hp'
          · exact absurd hpM hM
          · exact ⟨p, hp', hpM⟩
        obtain ⟨p, hp, hpM, hfold⟩ := ih (some p0.1, cosine qe p0.2) M hthr hM'
          (fun p' hp' => hle p' (by simp [hp'])) hex'
        exact ⟨p, by simp [hp], hpM, hfold⟩
    · have hstep : simStep thr qe acc p0 = acc := by
        unfold simStep
        rw [if_neg hc]
      rw [hstep]
      have hex' : ∃ p ∈ t, cosine qe p.2 = M := by
        rcases hex with ⟨p, hp, hpM⟩
        rcases List.mem_cons.mp hp with rfl | hp'
        · exact absurd ⟨hpM ▸ hthr, hpM ▸ hacc⟩ hc
        · exact ⟨p, hp', hpM⟩
      obtain ⟨p, hp, hpM, hfold⟩ := ih acc M hthr hacc
        (fun p' hp' => hle p' (by simp [hp'])) hex'
      exact ⟨p, by simp [hp], hpM, hfold⟩

/-- C3 (amended): with no exact match and a successful embedding, provided
the configured threshold is positive and every stored embedding sits under a
nonempty key that is present in the cache, `get` is a miss when every stored
embedding scores strictly below the threshold, and otherwise returns an
entry achieving the maximum cosine score annotated with that score — a score
exactly equal to the threshold counts as a hit. -/
theorem C3_similarity_threshold (s : CacheAgent) (q : String) (qe : List ℝ)
    (hexact : alookup (normalizeQuery q) s.cache = none)
    (hemb : s.embed q = some qe)
    (hthr : 0 < s.similarityThreshold)
    (hkeys : ∀ p ∈ s.cacheEmbeddings, p.1 ≠ "")
    (hpresent : ∀ p ∈ s.cacheEmbeddings, (alookup p.1 s.cache).isSome) :
    ((∀ p ∈ s.cacheEmbeddings, cosine qe p.2 < s.similarityThreshold) →
      s.get q = none) ∧
    (∀ M : ℝ, (∃ p ∈ s.cacheEmbeddings, cosine qe p.2 = M) →
      (∀ p ∈ s.cacheEmbeddings, cosine qe p.2 ≤ M) →
      s.similarityThreshold ≤ M →
      ∃ p ∈ s.cacheEmbeddings, ∃ d : CacheEntry, cosine qe p.2 = M ∧
        alookup p.1 s.cache = some d ∧
        s.get q = some ⟨d.response, d.contexts, d.tokenInfo, M⟩) := by
  constructor
  · intro hbelow
    have hscan : simScan s.similarityThreshold qe s.cacheEmbeddings = (none, 0) :=
      scan_below s.similarityThreshold qe s.cacheEmbeddings (none, 0) hbelow
    simp [CacheAgent.get, hexact, hemb, hscan]
  · intro M hex hle hthrM
    obtain ⟨p, hp, hpM, hfold⟩ := scan_hit s.similarityThreshold qe
      s.cacheEmbeddings (none, 0) M hthrM (lt_of_lt_of_le hthr hthrM) hle hex
    obtain ⟨d, hd⟩ := Option.isSome_iff_exists.mp (hpresent p hp)
    refine ⟨p, hp, d, hpM, hd, ?_⟩
    have hscan : simScan s.similarityThreshold qe s.cacheEmbeddings
        = (some p.1, M) := hfold
    simp [CacheAgent.get, hexact, hemb, hscan, hkeys p hp, hd]

/-! ## C3 counterexample and witness, C10 -/

/-- A cache holding one entry under the empty normalized key (as stored by a
`put` of a whitespace-only query) with a stored embedding, and an embedder
mapping every query to the same unit vector. -/
noncomputable def c3Agent : CacheAgent :=
  { cache := [("", ⟨"re", ["ce"], "te"⟩)]
    cacheEmbeddings := [("", [1, 0])]
    embed := fun _ => some [1, 0]
    maxSize := 5
    similarityThreshold := 0.8 }

theorem cosine_unit_same : cosine [(1 : ℝ), 0] [1, 0] = 1 := by
  have hd : dotL [(1 : ℝ), 0] [1, 0] = 1 := by
    simp [dotL]
  simp [cosine, norm2, hd, Real.sqrt_one]

theorem cosine_unit_orth : cosine [(1 : ℝ), 0] [0, 1] = 0 := by
  have hd : dotL [(1 : ℝ), 0] [0, 1] = 0 := by
    simp [dotL]
  simp [cosine, hd]

/-- C3 counterexample: the only stored embedding scores cosine 1 ≥ 0.8
against the query embedding and is the unique best match, yet `get` returns
a miss, because the best key is the empty string and `if best_key:` treats
it as falsy — refuting the claim that the highest-scoring entry above
threshold is always returned. -/
theorem C3_empty_key_counterexample :
    alookup (normalizeQuery "q") c3Agent.cache = none ∧
    c3Agent.embed "q" = some [1, 0] ∧
    ("", [(1 : ℝ), 0]) ∈ c3Agent.cacheEmbeddings ∧
    c3Agent.similarityThreshold ≤ cosine [1, 0] [1, 0] ∧
    c3Agent.get "q" = none := by
  have hthr : c3Agent.similarityThreshold = (0.8 : ℝ) := rfl
  have hscan : simScan c3Agent.similarityThreshold [1, 0] c3Agent.cacheEmbeddings
      = (some "", 1) := by
    show List.foldl (simStep c3Agent.similarityThreshold [1, 0]) (none, 0)
      [("", [1, 0])] = (some "", 1)
    rw [List.foldl_cons, List.foldl_nil]
    unfold simStep
    rw [if_pos]
    · simp [cosine_unit_same]
    · constructor
      · show c3Agent.similarityThreshold ≤ cosine [1, 0] ("", [(1 : ℝ), 0]).2
        rw [hthr]
        simp only [cosine_unit_same]
        norm_num
      · show ((none : Option String), (0 : ℝ)).2 < cosine [1, 0] ("", [(1 : ℝ), 0]).2
        simp [cosine_unit_same]
  refine ⟨by decide, rfl, by simp [c3Agent], ?_, ?_⟩
  · rw [hthr, cosine_unit_same]
    norm_num
  · simp [CacheAgent.get, show alookup (normalizeQuery "q") c3Agent.cache = none
      from by decide, show c3Agent.embed "q" = some [1, 0] from rfl, hscan]

/-- A one-entry cache whose stored embedding scores exactly the 0.8
threshold against the query embedding. -/
noncomputable def c3BoundaryAgent : CacheAgent :=
  { cache := [("k", ⟨"rk", ["ck"], "tk"⟩)]
    cacheEmbeddings := [("k", [0.8, 0.6])]
    embed := fun _ => some [1, 0]
    maxSize := 5
    similarityThreshold := 0.8 }

theorem cosine_boundary : cosine [(1 : ℝ), 0] [0.8, 0.6] = 0.8 := by
  have hd : dotL [(1 : ℝ), 0] [0.8, 0.6] = 0.8 := by
    simp [dotL]
  have hn1 : norm2 [(1 : ℝ), 0] = 1 := by
    simp [norm2, dotL, Real.sqrt_one]
  have hn2 : norm2 [(0.8 : ℝ), 0.6] = 1 := by
    have : dotL [(0.8 : ℝ), 0.6] [0.8, 0.6] = 1 := by
      simp [dotL]
      norm_num
    simp [norm2, this, Real.sqrt_one]
  rw [cosine, hd, hn1, hn2]
  norm_num

/-- A one-entry cache whose stored embedding scores strictly below the 0.8
threshold against the query embedding. -/
noncomputable def c3BelowAgent : CacheAgent :=
  { cache := [("k", ⟨"rk", ["ck"], "tk"⟩)]
    cacheEmbeddings := [("k", [0, 1])]
    embed := fun _ => some [1, 0]
    maxSize := 5
    similarityThreshold := 0.8 }

/-- C3 witness: the amended theorem applied at the boundary — a cosine score
of exactly 0.8 is a hit annotated with 0.8, while a score strictly below the
threshold is a miss. -/
theorem C3_similarity_threshold_witness :
    c3BoundaryAgent.get "q" = some ⟨"rk", ["ck"], "tk", 0.8⟩ ∧
    c3BelowAgent.get "q" = none := by
  constructor
  · obtain ⟨p, hp, d, hpM, hd, hget⟩ :=
      (C3_similarity_threshold c3BoundaryAgent "q" [1, 0] (by decide) rfl
        (by norm_num [c3BoundaryAgent])
        (by
          intro p hp
          simp only [c3BoundaryAgent, List.mem_singleton] at hp
          rw [hp]
          decide)
        (by
          intro p hp
          simp only [c3BoundaryAgent, List.mem_singleton] at hp
          rw [hp]
          decide)).2 0.8
        ⟨("k", [0.8, 0.6]), by simp [c3BoundaryAgent], cosine_boundary⟩
        (by
          intro p hp
          simp only [c3BoundaryAgent, List.mem_singleton] at hp
          rw [hp]
          rw [show (("k", [(0.8 : ℝ), 0.6]) : String × List ℝ).2 = [0.8, 0.6] from rfl,
            cosine_boundary])
        (by norm_num [c3BoundaryAgent])
    simp only [c3BoundaryAgent, List.mem_singleton] at hp
    rw [hp] at hd
    have hd' : alookup "k" c3BoundaryAgent.cache = some ⟨"rk", ["ck"], "tk"⟩ := by
      decide
    rw [show alookup ("k", [(0.8 : ℝ), 0.6]).1 c3BoundaryAgent.cache
        = alookup "k" c3BoundaryAgent.cache from rfl, hd'] at hd
    injection hd with hd2
    rw [← hd2] at hget
    exact hget
  · refine (C3_similarity_threshold c3BelowAgent "q" [1, 0] (by decide) rfl
      (by norm_num [c3BelowAgent])
      (by
        intro p hp
        simp only [c3BelowAgent, List.mem_singleton] at hp
        rw [hp]
        decide)
      (by
        intro p hp
        simp only [c3BelowAgent, List.mem_singleton] at hp
        rw [hp]
        decide)).1 ?_
    intro p hp
    simp only [c3BelowAgent, List.mem_singleton] at hp
    rw [hp]
    rw [show (("k", [(0 : ℝ), 1]) : String × List ℝ).2 = [0, 1] from rfl,
      cosine_unit_orth]
    norm_num [c3BelowAgent]

/-- C10: an entry cached under the empty normalized key is reachable only by
exact match.  For any query with no exact match whose embedding makes that
empty-keyed embedding the unique best match at or above the threshold, `get`
returns a miss: the chosen best key is tested for truthiness by
`if best_key:`, and the empty string is falsy. -/
theorem C10_empty_key_similarity_miss (s : CacheAgent) (q : String)
    (qe e : List ℝ)
    (hexact : alookup (normalizeQuery q) s.cache = none)
    (hemb : s.embed q = some qe)
    (hmem : ("", e) ∈ s.cacheEmbeddings)
    (hthr : 0 < s.similarityThreshold)
    (hbest : s.similarityThreshold ≤ cosine qe e)
    (hle : ∀ p ∈ s.cacheEmbeddings, cosine qe p.2 ≤ cosine qe e)
    (huniq : ∀ p ∈ s.cacheEmbeddings, cosine qe p.2 = cosine qe e → p.1 = "") :
    s.get q = none := by
  obtain ⟨p, hp, hpM, hfold⟩ := scan_hit s.similarityThreshold qe
    s.cacheEmbeddings (none, 0) (cosine qe e) hbest
    (lt_of_lt_of_le hthr hbest) hle ⟨("", e), hmem, rfl⟩
  have hkey : p.1 = "" := huniq p hp hpM
  have hscan : simScan s.similarityThreshold qe s.cacheEmbeddings
      = (some p.1, cosine qe e) := hfold
  simp [CacheAgent.get, hexact, hemb, hscan, hkey]

/-- A two-entry cache where the empty-keyed embedding is the unique best
match for the query embedding. -/
noncomputable def c10Agent : CacheAgent :=
  { cache := [("", ⟨"re", ["ce"], "te"⟩), ("k", ⟨"rk", ["ck"], "tk"⟩)]
    cacheEmbeddings := [("", [1, 0]), ("k", [0, 1])]
    embed := fun _ => some [1, 0]
    maxSize := 5
    similarityThreshold := 0.8 }

/-- C10 witness: the theorem applied to `c10Agent` — the empty-keyed entry
scores cosine 1, the other entry cosine 0, and `get` misses. -/
theorem C10_empty_key_similarity_miss_witness :
    c10Agent.get "q" = none := by
  refine C10_empty_key_similarity_miss c10Agent "q" [1, 0] [1, 0]
    (by decide) rfl (by simp [c10Agent]) (by norm_num [c10Agent]) ?_ ?_ ?_
  · rw [cosine_unit_same]
    norm_num [c10Agent]
  · intro p hp
    rw [show c10Agent.cacheEmbeddings = [("", [1, 0]), ("k", [0, 1])] from rfl]
      at hp
    rcases List.mem_cons.mp hp with rfl | hp'
    · exact le_refl _
    · rcases List.mem_singleton.mp hp' with rfl
      rw [show (("k", [(0 : ℝ), 1]) : String × List ℝ).2 = [0, 1] from rfl,
        cosine_unit_orth, cosine_unit_same]
      norm_num
  · intro p hp
    rw [show c10Agent.cacheEmbeddings = [("", [1, 0]), ("k", [0, 1])] from rfl]
      at hp
    rcases List.mem_cons.mp hp with rfl | hp'
    · intro _
      rfl
    · rcases List.mem_singleton.mp hp' with rfl
      rw [show (("k", [(0 : ℝ), 1]) : String × List ℝ).2 = [0, 1] from rfl,
        cosine_unit_orth, cosine_unit_same]
      intro hc
      norm_num at hc

/-! ## C8: router failure atomicity -/

/-- C8: when the query passes the clarification gate and the external
answering collaborator raises, `route` catches the exception and returns the
generic error answer with an empty passage list and no metadata; the
conversation memory holds exactly the user turn appended at step 1 — no
assistant turn is recorded for the failed attempt — and the session cache is
untouched (`route` contains no cache operation). -/
theorem C8_route_failure_atomicity (mem : ConversationMemory) (q e : String)
    (invoke : String → Except String (List String × List String))
    (hgate : (assessQuestion q).needsClarification = false)
    (hfail : ∀ prompt, invoke prompt = Except.error e) :
    (ManagerAgent.route invoke mem q).1.answer = "Error processing query: " ++ e ∧
    (ManagerAgent.route invoke mem q).1.passages = [] ∧
    (ManagerAgent.route invoke mem q).1.meta = none ∧
    (ManagerAgent.route invoke mem q).2 = mem.addMessage "user" q ∧
    (∀ cache : CacheAgent, (routeSession invoke cache mem q).2.2 = cache) := by
  have hroute : ManagerAgent.route invoke mem q
      = (⟨"Error processing query: " ++ e, [], none⟩, mem.addMessage "user" q) := by
    unfold ManagerAgent.route
    simp [hgate, hfail]
  refine ⟨?_, ?_, ?_, ?_, ?_⟩ <;> simp [routeSession, hroute]

/-- C8 witness: a collaborator that always raises "boom" on a plain factual
query — the error answer is surfaced, passages are empty, and memory holds
only the user turn. -/
theorem C8_route_failure_atomicity_witness :
    (ManagerAgent.route (fun _ => Except.error "boom") ⟨10, []⟩
        "What was the revenue in 2023?").1.answer
      = "Error processing query: boom" ∧
    (ManagerAgent.route (fun _ => Except.error "boom") ⟨10, []⟩
        "What was the revenue in 2023?").1.passages = [] ∧
    (ManagerAgent.route (fun _ => Except.error "boom") ⟨10, []⟩
        "What was the revenue in 2023?").2
      = ⟨10, [ChatMsg.human "What was the revenue in 2023?"]⟩ := by
  have h := C8_route_failure_atomicity ⟨10, []⟩ "What was the revenue in 2023?"
    "boom" (fun _ => Except.error "boom") (by decide) (fun _ => rfl)
  exact ⟨h.1, h.2.1, h.2.2.2.1.trans (by decide)⟩
